import Mathlib

/-!
Shallow embedding of the dialogue / quest core of the `pygame2.0` repository
(`src/core/dialogue.py` and `src/core/quests.py`), together with proofs of the
specification claims about it.

Python dictionaries are embedded as association lists (`AList`) whose `insert`
overwrites an existing binding, Python exceptions as an explicit error type
(`DErr`), and the synchronous event callback as a trace: each operation returns
the list of `(event_name, payload)` calls it performs, in order.  A session
carries `has_callback` mirroring the optional callback being present or `None`.
Python truthiness of an optional event-name string (`if self.event_callback and
choice.event:`) is embedded by `eventFires`: the event fires only when the
string is present and non-empty.
-/

namespace Pygame

/-- Association-list embedding of a Python `dict[str, α]`. -/
abbrev AList (α : Type) := List (String × α)

/-- Dictionary lookup: `d[k]` / `d.get(k)`. -/
def alistFind? {α : Type} (m : AList α) (k : String) : Option α :=
  match m with
  | [] => none
  | (k', v) :: rest => if k' == k then some v else alistFind? rest k

/-- Dictionary write `d[k] = v`: overwrites an existing binding of `k` in
place, otherwise appends (Python dicts keep insertion order). -/
def alistInsert {α : Type} (m : AList α) (k : String) (v : α) : AList α :=
  match m with
  | [] => [(k, v)]
  | (k', v') :: rest =>
      if k' == k then (k, v) :: rest else (k', v') :: alistInsert rest k v

/-- Errors raised by the Python code: `ValueError` for a missing dialogue or
node id (`notFound`), plus the implicit `KeyError` / `IndexError` a broken
session state would trigger on raw dict / list indexing. -/
inductive DErr where
  | notFound (id : String)
  | keyError (id : String)
  | indexError
deriving Repr, DecidableEq

/-- Event payloads are string-keyed dicts; all payloads in this core are
`{"node_id": ...}` or `{"object_id": ...}` shaped. -/
abbrev Payload := List (String × String)

/-- One call to the event callback: name plus payload. -/
structure DEvent where
  name : String
  payload : Payload
deriving Repr, DecidableEq

/-- `DialogueChoice` dataclass. -/
structure DialogueChoice where
  text : String
  next_id : Option String := none
  event : Option String := none
deriving Repr, DecidableEq

/-- `DialogueNode` dataclass. -/
structure DialogueNode where
  node_id : String
  text : String
  next_id : Option String := none
  choices : List DialogueChoice := []
  enter_event : Option String := none
  exit_event : Option String := none
deriving Repr, DecidableEq

/-- `DialogueNode.has_choices`: `bool(self.choices)`. -/
def DialogueNode.has_choices (n : DialogueNode) : Bool :=
  !n.choices.isEmpty

/-- Python truthiness of an optional event-name string: `None` and `""` are
falsy, so the guard `self.event_callback and e` fires only for a present,
non-empty name. -/
def eventFires (e : Option String) : Bool :=
  match e with
  | none => false
  | some s => !s.isEmpty

/-- The callback calls performed by `if self.event_callback and e:
self.event_callback(e, {"node_id": node_id})` — one event when the callback is
present and `e` is truthy, none otherwise. -/
def fireEvent (hasCb : Bool) (e : Option String) (node_id : String) : List DEvent :=
  match e with
  | some name => if hasCb && !name.isEmpty then [⟨name, [("node_id", node_id)]⟩] else []
  | none => []

/-- `DialogueSession` state: the borrowed node mapping, the cursor, and whether
an event callback was supplied. -/
structure DialogueSession where
  nodes : AList DialogueNode
  current_id : String
  choice_index : Nat
  has_callback : Bool
deriving Repr, DecidableEq

/-- `DialogueSession.current_node`: `self.nodes[self.current_id]` (as an
option; `none` is the `KeyError` case). -/
def DialogueSession.current_node (s : DialogueSession) : Option DialogueNode :=
  alistFind? s.nodes s.current_id

/-- `DialogueSession._dispatch_enter_event(node)`. -/
def dispatchEnter (hasCb : Bool) (node : DialogueNode) : List DEvent :=
  fireEvent hasCb node.enter_event node.node_id

/-- `DialogueSession.__init__(nodes, start_id, event_callback)`: raises
`ValueError` when `start_id` is not a key of `nodes` (before firing anything),
otherwise builds the session and dispatches the start node's enter event.
Returns the trace of callback calls alongside the outcome. -/
def DialogueSession.make (nodes : AList DialogueNode) (start_id : String)
    (has_callback : Bool) : List DEvent × Except DErr DialogueSession :=
  match alistFind? nodes start_id with
  | none => ([], .error (.notFound start_id))
  | some node =>
      (dispatchEnter has_callback node,
       .ok { nodes := nodes, current_id := start_id, choice_index := 0,
             has_callback := has_callback })

/-- `DialogueSession.move_choice(offset)`: no-op without choices, otherwise
`self.choice_index = (self.choice_index + offset) % len(node.choices)` (Python
`%` on a positive modulus agrees with `Int.emod`). -/
def DialogueSession.move_choice (s : DialogueSession) (offset : Int) :
    Except DErr DialogueSession :=
  match s.current_node with
  | none => .error (.keyError s.current_id)
  | some node =>
      if !node.has_choices then .ok s
      else .ok { s with choice_index :=
        (((s.choice_index : Int) + offset) % (node.choices.length : Int)).toNat }

/-- The tail of `DialogueSession.confirm` after the departing node's events
`evs` were fired and `next_id` resolved: finish when `next_id` is `None`, raise
`ValueError` when it is not a key of the map, otherwise move the cursor, reset
the choice index and dispatch the new node's enter event. -/
def confirmStep (s : DialogueSession) (evs : List DEvent) (next_id : Option String) :
    List DEvent × Except DErr (Bool × DialogueSession) :=
  match next_id with
  | none => (evs, .ok (true, s))
  | some nid =>
      match alistFind? s.nodes nid with
      | none => (evs, .error (.notFound nid))
      | some node2 =>
          (evs ++ dispatchEnter s.has_callback node2,
           .ok (false, { s with current_id := nid, choice_index := 0 }))

/-- `DialogueSession.confirm()`: fires the selected choice's event (branching
node) or the node's exit event (linear node), resolves `next_id`, and either
completes (`True`), raises `ValueError`, or advances and fires the target's
enter event (`False`).  The trace lists the callback calls in program order. -/
def DialogueSession.confirm (s : DialogueSession) :
    List DEvent × Except DErr (Bool × DialogueSession) :=
  match s.current_node with
  | none => ([], .error (.keyError s.current_id))
  | some node =>
      if node.has_choices then
        match node.choices[s.choice_index]? with
        | none => ([], .error .indexError)
        | some choice =>
            confirmStep s (fireEvent s.has_callback choice.event node.node_id) choice.next_id
      else
        confirmStep s (fireEvent s.has_callback node.exit_event node.node_id) node.next_id

/-- `DialogueSession.cancel()`: fires the current node's exit event, performs
no transition. -/
def DialogueSession.cancel (s : DialogueSession) : Except DErr (List DEvent) :=
  match s.current_node with
  | none => .error (.keyError s.current_id)
  | some node => .ok (fireEvent s.has_callback node.exit_event node.node_id)

/-- `DialogueManager` state: the registry `self.dialogues` plus whether a
callback was supplied. -/
structure DialogueManager where
  dialogues : AList (AList DialogueNode)
  has_callback : Bool
deriving Repr, DecidableEq

/-- The dict comprehension `{node.node_id: node for node in nodes}`:
sequential inserts over the ordered node sequence, so a later duplicate
`node_id` overwrites an earlier one. -/
def buildMapping (nodes : List DialogueNode) : AList DialogueNode :=
  nodes.foldl (fun acc node => alistInsert acc node.node_id node) []

/-- `DialogueManager.register(dialogue_id, nodes)`: builds the comprehension
mapping and stores it under `dialogue_id`, replacing any prior graph. -/
def DialogueManager.register (m : DialogueManager) (dialogue_id : String)
    (nodes : List DialogueNode) : DialogueManager :=
  { m with dialogues := alistInsert m.dialogues dialogue_id (buildMapping nodes) }

/-- `DialogueManager.start(dialogue_id, start_node="root")`: `ValueError` on an
unregistered dialogue id, otherwise constructs a session on the stored graph. -/
def DialogueManager.start (m : DialogueManager) (dialogue_id : String)
    (start_node : String := "root") : List DEvent × Except DErr DialogueSession :=
  match alistFind? m.dialogues dialogue_id with
  | none => ([], .error (.notFound dialogue_id))
  | some graph => DialogueSession.make graph start_node m.has_callback

/-- Modelled from the spec: the quest-id constant imported from
`core/settings.py`, a file not present under `src/`; the spec fixes only that
there is a single hardcoded tracked quest id, not its string value. -/
def QUEST_FIND_ARTIFACTS : String := "quest_find_artifacts"

/-- `QuestState` dataclass; `items_collected` is a Python `set[str]`. -/
structure QuestState where
  quest_id : String
  description : String
  items_required : Nat
  items_collected : Finset String := ∅
  completed : Bool := false
deriving DecidableEq

/-- `QuestState.record_item(object_id)`: once completed, ignore; otherwise add
the id to the set and mark completed when the set reaches `items_required`. -/
def QuestState.record_item (q : QuestState) (object_id : String) : QuestState :=
  if q.completed then q
  else
    let items := insert object_id q.items_collected
    if q.items_required ≤ items.card then
      { q with items_collected := items, completed := true }
    else
      { q with items_collected := items }

/-- `QuestManager` state: the quest dict built in `__init__`. -/
structure QuestManager where
  quests : AList QuestState
deriving DecidableEq

/-- `QuestManager.__init__`: one hardcoded quest requiring three items. -/
def QuestManager.init : QuestManager :=
  ⟨[(QUEST_FIND_ARTIFACTS,
     { quest_id := QUEST_FIND_ARTIFACTS,
       description := "Gather the three Heart Shards scattered across the region.",
       items_required := 3 })]⟩

/-- `(payload or {}).get(key)`. -/
def payloadGet (p : Option Payload) (k : String) : Option String :=
  match p with
  | none => none
  | some l => alistFind? l k

/-- `QuestManager.handle_event(event_name, payload)`: ignores every event other
than `"quest_item_collected"` and any payload without a truthy `object_id`;
otherwise records the item and returns `["quest_completed"]` exactly on an
incomplete-to-complete transition.  (`keyError` marks the raw dict access — it
is unreachable from the constructed manager.) -/
def QuestManager.handle_event (m : QuestManager) (event_name : String)
    (payload : Option Payload := none) : Except DErr (QuestManager × List String) :=
  if event_name != "quest_item_collected" then .ok (m, [])
  else
    match payloadGet payload "object_id" with
    | none => .ok (m, [])
    | some object_id =>
        if object_id.isEmpty then .ok (m, [])
        else
          match alistFind? m.quests QUEST_FIND_ARTIFACTS with
          | none => .error (.keyError QUEST_FIND_ARTIFACTS)
          | some state =>
              let pre_complete := state.completed
              let state2 := state.record_item object_id
              let m2 : QuestManager := ⟨alistInsert m.quests QUEST_FIND_ARTIFACTS state2⟩
              if !pre_complete && state2.completed then .ok (m2, ["quest_completed"])
              else .ok (m2, [])

/-- `QuestManager.quest_completed(quest_id)`: the completion flag, defaulting
to `False` for unknown quest ids. -/
def QuestManager.quest_completed (m : QuestManager) (quest_id : String) : Bool :=
  match alistFind? m.quests quest_id with
  | none => false
  | some s => s.completed

/-! ### Association-list lemmas -/

theorem alistFind?_insert_self {α : Type} (m : AList α) (k : String) (v : α) :
    alistFind? (alistInsert m k v) k = some v := by
  induction m with
  | nil => simp [alistInsert, alistFind?]
  | cons p rest ih =>
      obtain ⟨k', v'⟩ := p
      by_cases h : k' = k
      · subst h
        simp [alistInsert, alistFind?]
      · simp [alistInsert, alistFind?, h, ih]

theorem alistFind?_insert_ne {α : Type} (m : AList α) {k k' : String} (v : α)
    (h : k ≠ k') : alistFind? (alistInsert m k v) k' = alistFind? m k' := by
  induction m with
  | nil => simp [alistInsert, alistFind?, h]
  | cons p rest ih =>
      obtain ⟨k₀, v₀⟩ := p
      by_cases hk : k₀ = k
      · subst hk
        simp [alistInsert, alistFind?, h]
      · simp [alistInsert, alistFind?, hk, ih]

/-! ### C6: unrelated or malformed events are silently ignored -/

/-- C6: `QuestManager.handle_event` with an event name other than
`"quest_item_collected"`, or with a payload that is absent or lacks a truthy
`object_id`, returns the empty action list, raises nothing, and leaves the
manager (hence `items_collected` and `completed`) completely unchanged. -/
theorem claim6_malformed_events_ignored (m : QuestManager) (event_name : String)
    (payload : Option Payload)
    (h : event_name ≠ "quest_item_collected"
         ∨ payloadGet payload "object_id" = none
         ∨ payloadGet payload "object_id" = some "") :
    m.handle_event event_name payload = .ok (m, []) := by
  rcases h with h | h | h
  · simp [QuestManager.handle_event, h]
  · by_cases he : event_name = "quest_item_collected"
    · simp [QuestManager.handle_event, he, h]
    · simp [QuestManager.handle_event, he]
  · by_cases he : event_name = "quest_item_collected"
    · simp [QuestManager.handle_event, he, h, String.isEmpty]
    · simp [QuestManager.handle_event, he]

/-- Witness for C6 at concrete inputs. -/
theorem claim6_witness :
    QuestManager.init.handle_event "npc_rebind"
        (some [("object_id", "quest_item_a")]) = .ok (QuestManager.init, []) :=
  claim6_malformed_events_ignored QuestManager.init "npc_rebind"
    (some [("object_id", "quest_item_a")]) (Or.inl (by decide))

/-! ### C8: registration builds a last-write-wins mapping and replaces -/

theorem buildMapping_concat (ns : List DialogueNode) (n : DialogueNode) :
    buildMapping (ns ++ [n]) = alistInsert (buildMapping ns) n.node_id n := by
  simp [buildMapping, List.foldl_append]

/-- C8: `DialogueManager.register` stores, under `dialogue_id`, exactly the
mapping built from the ordered node sequence — replacing any previously
registered graph — and that mapping is last-write-wins: looking up any key
yields the *last* node of the sequence carrying that `node_id`. -/
theorem claim8_register_last_write_wins (m : DialogueManager)
    (dialogue_id : String) (nodes : List DialogueNode) (k : String) :
    alistFind? (m.register dialogue_id nodes).dialogues dialogue_id
        = some (buildMapping nodes)
    ∧ alistFind? (buildMapping nodes) k
        = (nodes.filter (fun n => n.node_id == k)).getLast? := by
  constructor
  · simp [DialogueManager.register, alistFind?_insert_self]
  · induction nodes using List.reverseRecOn with
    | nil => simp [buildMapping, alistFind?]
    | append_singleton ns n ih =>
        rw [buildMapping_concat]
        by_cases h : n.node_id = k
        · subst h
          simp [alistFind?_insert_self, List.filter_append]
        · rw [alistFind?_insert_ne _ _ h, ih]
          simp [List.filter_append, h]

/-! ### Concrete demonstration graph (used by the witnesses) -/

/-- A concrete branching choice, as in the spec's ordering example. -/
def demoChoice : DialogueChoice :=
  { text := "go", next_id := some "end", event := some "travel_to_forest" }

/-- A concrete branching root node with an enter event. -/
def demoRoot : DialogueNode :=
  { node_id := "root", text := "hi", choices := [demoChoice],
    enter_event := some "root_enter" }

/-- A concrete terminal node with an enter event. -/
def demoEnd : DialogueNode :=
  { node_id := "end", text := "bye", enter_event := some "end_enter" }

/-- The two-node demonstration graph. -/
def demoGraph : AList DialogueNode := [("root", demoRoot), ("end", demoEnd)]

/-! ### C9: construction fires the start node's enter event; nothing on failure -/

/-- C9: constructing a `DialogueSession` on a valid start node (one whose
`node_id` equals its key, as in every `register`-built graph) performs exactly
the enter-event dispatch of that node before the caller receives the session —
a single callback call with payload `{"node_id": start_id}` when the enter
event is set (and a callback is present), and when construction fails because
the start id is absent, no event is fired at all. -/
theorem claim9_construction_enter_event (nodes : AList DialogueNode)
    (start_id : String) (hasCb : Bool) :
    (∀ node, alistFind? nodes start_id = some node → node.node_id = start_id →
        DialogueSession.make nodes start_id hasCb
          = (fireEvent hasCb node.enter_event start_id,
             .ok ⟨nodes, start_id, 0, hasCb⟩)
        ∧ ∀ ename, node.enter_event = some ename → ename ≠ "" → hasCb = true →
            (DialogueSession.make nodes start_id hasCb).1
              = [⟨ename, [("node_id", start_id)]⟩])
    ∧ (alistFind? nodes start_id = none →
        DialogueSession.make nodes start_id hasCb
          = ([], .error (.notFound start_id))) := by
  constructor
  · intro node hfind hid
    constructor
    · simp [DialogueSession.make, hfind, dispatchEnter, hid]
    · intro ename he hne hcb
      have hemp : ename.isEmpty = false := by
        cases hval : ename.isEmpty
        · rfl
        · exact absurd ((String.isEmpty_iff _).mp hval) hne
      simp [DialogueSession.make, hfind, dispatchEnter, fireEvent, he, hid,
        hcb, hemp]
  · intro hfind
    simp [DialogueSession.make, hfind]

/-- Witness for C9 at the concrete demonstration graph. -/
theorem claim9_witness :
    (DialogueSession.make demoGraph "root" true).1
      = [⟨"root_enter", [("node_id", "root")]⟩] :=
  ((claim9_construction_enter_event demoGraph "root" true).1 demoRoot
      (by decide) (by decide)).2 "root_enter" (by decide) (by decide) rfl

/-! ### C5: move_choice is a modular round trip that fires nothing -/

theorem emod_add_neg_toNat (i n : Nat) (k : Int) (h : i < n) :
    ((((((i : Int) + k) % (n : Int)).toNat : Int) + -k) % (n : Int)).toNat = i := by
  have hn : (0 : Int) < (n : Int) := by exact_mod_cast Nat.lt_of_le_of_lt (Nat.zero_le i) h
  have h1 : 0 ≤ ((i : Int) + k) % (n : Int) := Int.emod_nonneg _ (ne_of_gt hn)
  rw [Int.toNat_of_nonneg h1]
  have h2 : (((i : Int) + k) % (n : Int) + -k) % (n : Int)
      = ((i : Int) + k + -k) % (n : Int) := by
    conv_lhs => rw [Int.add_emod]
    conv_rhs => rw [Int.add_emod]
    rw [Int.emod_emod_of_dvd _ dvd_rfl]
  rw [h2]
  have h3 : (i : Int) + k + -k = (i : Int) := by ring
  rw [h3, Int.emod_eq_of_lt (Int.natCast_nonneg i) (by exact_mod_cast h)]
  simp

/-- C5: on a node with at least one choice (and an in-range cursor),
`move_choice k` followed by `move_choice (-k)` restores the session exactly —
in particular `choice_index` returns to its original value; every successful
`move_choice` leaves `nodes`, `current_id` and the callback untouched (it
performs no event dispatch — its embedding returns no trace, mirroring the
source, which never calls the callback there); and on a node without choices
it is a complete no-op. -/
theorem claim5_move_choice_round_trip (s : DialogueSession)
    (node : DialogueNode) (h : s.current_node = some node) (k : Int) :
    (node.has_choices = false → s.move_choice k = .ok s)
    ∧ (∀ s1, s.move_choice k = .ok s1 →
        s1.nodes = s.nodes ∧ s1.current_id = s.current_id
          ∧ s1.has_callback = s.has_callback)
    ∧ (node.has_choices = true → s.choice_index < node.choices.length →
        ∃ s1, s.move_choice k = .ok s1 ∧ s1.move_choice (-k) = .ok s) := by
  refine ⟨?_, ?_, ?_⟩
  · intro hnc
    simp [DialogueSession.move_choice, h, hnc]
  · intro s1 h1
    rw [DialogueSession.move_choice, h] at h1
    by_cases hnc : node.has_choices
    · simp [hnc] at h1
      subst h1
      exact ⟨rfl, rfl, rfl⟩
    · simp [hnc] at h1
      subst h1
      exact ⟨rfl, rfl, rfl⟩
  · intro hnc hlt
    have hmv1 : s.move_choice k = .ok { s with choice_index :=
        (((s.choice_index : Int) + k) % (node.choices.length : Int)).toNat } := by
      simp [DialogueSession.move_choice, h, hnc]
    refine ⟨_, hmv1, ?_⟩
    have hcur2 : ({ s with choice_index :=
        (((s.choice_index : Int) + k) % (node.choices.length : Int)).toNat
      } : DialogueSession).current_node = some node := h
    have hmv2 : ({ s with choice_index :=
        (((s.choice_index : Int) + k) % (node.choices.length : Int)).toNat
      } : DialogueSession).move_choice (-k) = .ok { s with choice_index :=
        ((((((s.choice_index : Int) + k) % (node.choices.length : Int)).toNat
          : Int) + -k) % (node.choices.length : Int)).toNat } := by
      simp [DialogueSession.move_choice, hcur2, hnc]
    rw [hmv2, emod_add_neg_toNat s.choice_index node.choices.length k hlt]

/-- Witness for C5 at the concrete demonstration graph. -/
theorem claim5_witness :
    ∃ s1, (DialogueSession.mk demoGraph "root" 0 true).move_choice 5 = .ok s1
      ∧ s1.move_choice (-5) = .ok (DialogueSession.mk demoGraph "root" 0 true) :=
  (claim5_move_choice_round_trip (DialogueSession.mk demoGraph "root" 0 true)
      demoRoot (by decide) 5).2.2 (by decide) (by decide)

/-! ### The confirm transition, dissected -/

/-- The `next_id` that `confirm` resolves for a node and cursor position: the
selected choice's `next_id` on a branching node (the outer `none` is the
out-of-range-index case), the node's own `next_id` on a linear node. -/
def resolvedNext (node : DialogueNode) (idx : Nat) : Option (Option String) :=
  if node.has_choices then (node.choices[idx]?).map (fun c => c.next_id)
  else some node.next_id

/-- The callback calls `confirm` performs for the departing node: the selected
choice's event on a branching node, the node's exit event on a linear node. -/
def departEvents (s : DialogueSession) (node : DialogueNode) : List DEvent :=
  if node.has_choices then
    match node.choices[s.choice_index]? with
    | some choice => fireEvent s.has_callback choice.event node.node_id
    | none => []
  else fireEvent s.has_callback node.exit_event node.node_id

/-- `confirm` factors through `confirmStep`, with the departing node's events
fired first and the resolved `next_id`. -/
theorem confirm_eq (s : DialogueSession) (node : DialogueNode)
    (h : s.current_node = some node) (nxt : Option String)
    (hn : resolvedNext node s.choice_index = some nxt) :
    s.confirm = confirmStep s (departEvents s node) nxt := by
  by_cases hc : node.has_choices
  · cases hg : node.choices[s.choice_index]? with
    | none => simp [resolvedNext, hc, hg] at hn
    | some choice =>
        have hnx : choice.next_id = nxt := by
          simpa [resolvedNext, hc, hg] using hn
        simp [DialogueSession.confirm, h, hc, hg, departEvents, hnx]
  · have hnx : node.next_id = nxt := by
      simpa [resolvedNext, hc] using hn
    simp [DialogueSession.confirm, h, hc, departEvents, hnx]

/-- Inversion: a `confirm` that returns the non-completion signal resolved an
in-graph `next_id`; its trace is the departing node's events followed by the
arriving node's enter events, and the new state points at the target with the
choice index reset. -/
theorem confirm_moves_inversion (s s2 : DialogueSession)
    (hm : s.confirm.2 = .ok (false, s2)) :
    ∃ node node2, s.current_node = some node
      ∧ alistFind? s.nodes s2.current_id = some node2
      ∧ s.confirm.1 = departEvents s node ++ dispatchEnter s.has_callback node2
      ∧ s2 = { s with current_id := s2.current_id, choice_index := 0 } := by
  cases hcur : s.current_node with
  | none => simp [DialogueSession.confirm, hcur] at hm
  | some node =>
    have key : ∀ nxt, resolvedNext node s.choice_index = some nxt →
        ∃ node2, alistFind? s.nodes s2.current_id = some node2
          ∧ s.confirm.1 = departEvents s node ++ dispatchEnter s.has_callback node2
          ∧ s2 = { s with current_id := s2.current_id, choice_index := 0 } := by
      intro nxt hn
      have heq := confirm_eq s node hcur nxt hn
      cases hnx : nxt with
      | none =>
          rw [heq, hnx] at hm
          simp [confirmStep] at hm
      | some nid =>
          cases hfind : alistFind? s.nodes nid with
          | none => rw [heq, hnx] at hm; simp [confirmStep, hfind] at hm
          | some node2 =>
              rw [heq, hnx] at hm
              simp [confirmStep, hfind] at hm
              have hs2 : s2 = { s with current_id := nid, choice_index := 0 } :=
                hm.symm
              have hcid : s2.current_id = nid := by rw [hs2]
              refine ⟨node2, ?_, ?_, ?_⟩
              · rw [hcid]; exact hfind
              · rw [heq, hnx]; simp [confirmStep, hfind]
              · rw [hs2]
    by_cases hc : node.has_choices
    · cases hg : node.choices[s.choice_index]? with
      | none => simp [DialogueSession.confirm, hcur, hc, hg] at hm
      | some choice =>
          obtain ⟨node2, h1, h2, h3⟩ := key choice.next_id
            (by simp [resolvedNext, hc, hg])
          exact ⟨node, node2, rfl, h1, h2, h3⟩
    · obtain ⟨node2, h1, h2, h3⟩ := key node.next_id
        (by simp [resolvedNext, hc])
      exact ⟨node, node2, rfl, h1, h2, h3⟩

/-! ### C1: departing events fire strictly before the arriving enter event -/

/-- C1: whenever `confirm` moves to a new node, the emitted trace is the
departing node's events (the selected choice's event on a branching node, the
exit event on a linear node) followed by the arriving node's enter events; in
particular, when both fire, the trace is exactly `[depart, enter]` — the
reverse order never occurs. -/
theorem claim1_depart_before_enter (s s2 : DialogueSession)
    (hm : s.confirm.2 = .ok (false, s2)) :
    ∃ node node2, s.current_node = some node
      ∧ alistFind? s.nodes s2.current_id = some node2
      ∧ s.confirm.1 = departEvents s node ++ dispatchEnter s.has_callback node2
      ∧ (∀ e1 e2, departEvents s node = [e1] →
          dispatchEnter s.has_callback node2 = [e2] → s.confirm.1 = [e1, e2]) := by
  obtain ⟨node, node2, h1, h2, h3, _⟩ := confirm_moves_inversion s s2 hm
  refine ⟨node, node2, h1, h2, h3, ?_⟩
  intro e1 e2 hd he
  rw [h3, hd, he]
  rfl

/-- Witness for C1: confirming the demonstration root emits the choice event
`"travel_to_forest"` and then the target's enter event, in that order. -/
theorem claim1_witness :
    ∃ node node2,
      (DialogueSession.mk demoGraph "root" 0 true).current_node = some node
      ∧ alistFind? demoGraph "end" = some node2
      ∧ (DialogueSession.mk demoGraph "root" 0 true).confirm.1
          = departEvents (DialogueSession.mk demoGraph "root" 0 true) node
            ++ dispatchEnter true node2 := by
  obtain ⟨node, node2, h1, h2, h3, _⟩ :=
    claim1_depart_before_enter (DialogueSession.mk demoGraph "root" 0 true)
      (DialogueSession.mk demoGraph "end" 0 true) (by rfl)
  exact ⟨node, node2, h1, h2, h3⟩

/-! ### C3: confirm either completes in place or advances and fires enter -/

/-- C3: when the resolved `next_id` is absent, `confirm` returns the
completion signal with the session unchanged (same `current_id`, same
`choice_index`); when it names a node of the graph, `confirm` moves
`current_id` there, resets `choice_index` to `0`, appends that node's
enter-event dispatch to the trace, and returns the non-completion signal. -/
theorem claim3_confirm_transition (s : DialogueSession) (node : DialogueNode)
    (h : s.current_node = some node) (nxt : Option String)
    (hn : resolvedNext node s.choice_index = some nxt) :
    (nxt = none → s.confirm = (departEvents s node, .ok (true, s)))
    ∧ (∀ nid node2, nxt = some nid → alistFind? s.nodes nid = some node2 →
        s.confirm = (departEvents s node ++ dispatchEnter s.has_callback node2,
          .ok (false, { s with current_id := nid, choice_index := 0 }))) := by
  constructor
  · intro hnone
    subst hnone
    rw [confirm_eq s node h none hn]
    rfl
  · intro nid node2 hsome hfind
    subst hsome
    rw [confirm_eq s node h (some nid) hn]
    simp [confirmStep, hfind]

/-- Witness for C3: two confirms walk the demonstration graph to completion. -/
theorem claim3_witness :
    (DialogueSession.mk demoGraph "end" 0 true).confirm
      = (departEvents (DialogueSession.mk demoGraph "end" 0 true) demoEnd,
         .ok (true, DialogueSession.mk demoGraph "end" 0 true)) :=
  (claim3_confirm_transition (DialogueSession.mk demoGraph "end" 0 true)
      demoEnd (by decide) none (by decide)).1 rfl

/-! ### C4: NotFound exactly on missing dialogue, start node, or target -/

/-- C4: `DialogueManager.start` fails exactly when the dialogue id is
unregistered or the start node id is absent from the registered graph — and
then with a `notFound` error naming one of the two ids — and otherwise returns
a session positioned at the start node; `confirm` (from a state whose node and
cursor resolve a `next_id`) fails exactly when that resolved `next_id` is
present but names no node of the graph, and then with `notFound` on that id. -/
theorem claim4_notFound_characterisation (m : DialogueManager)
    (did sn : String) (s : DialogueSession) (node : DialogueNode)
    (h : s.current_node = some node) (nxt : Option String)
    (hn : resolvedNext node s.choice_index = some nxt) :
    ((∃ e, (m.start did sn).2 = .error e) ↔
        alistFind? m.dialogues did = none
        ∨ ∃ graph, alistFind? m.dialogues did = some graph
            ∧ alistFind? graph sn = none)
    ∧ (∀ e, (m.start did sn).2 = .error e → e = .notFound did ∨ e = .notFound sn)
    ∧ (∀ graph node0, alistFind? m.dialogues did = some graph →
        alistFind? graph sn = some node0 →
          ∃ sess, (m.start did sn).2 = .ok sess ∧ sess.current_id = sn)
    ∧ ((∃ e, s.confirm.2 = .error e) ↔
        ∃ nid, nxt = some nid ∧ alistFind? s.nodes nid = none)
    ∧ (∀ e, s.confirm.2 = .error e → ∃ nid, nxt = some nid ∧ e = .notFound nid) := by
  have hstart : ∀ P : Prop,
      ((∃ e, (m.start did sn).2 = .error e) → P) → True := fun _ _ => trivial
  have hconf := confirm_eq s node h nxt hn
  refine ⟨?_, ?_, ?_, ?_, ?_⟩
  · cases hd : alistFind? m.dialogues did with
    | none =>
        simp [DialogueManager.start, hd]
    | some graph =>
        cases hg : alistFind? graph sn with
        | none =>
            simp [DialogueManager.start, hd, DialogueSession.make, hg]
        | some node0 =>
            simp [DialogueManager.start, hd, DialogueSession.make, hg]
  · intro e he
    cases hd : alistFind? m.dialogues did with
    | none =>
        rw [DialogueManager.start] at he
        simp [hd] at he
        exact Or.inl he.symm
    | some graph =>
        rw [DialogueManager.start] at he
        simp [hd, DialogueSession.make] at he
        cases hg : alistFind? graph sn with
        | none =>
            simp [hg] at he
            exact Or.inr he.symm
        | some node0 => simp [hg] at he
  · intro graph node0 hd hg
    refine ⟨⟨graph, sn, 0, m.has_callback⟩, ?_, rfl⟩
    simp [DialogueManager.start, hd, DialogueSession.make, hg]
  · rw [hconf]
    cases hnx : nxt with
    | none => simp [confirmStep]
    | some nid =>
        cases hfind : alistFind? s.nodes nid with
        | none => simp [confirmStep, hfind]
        | some node2 => simp [confirmStep, hfind]
  · intro e he
    rw [hconf] at he
    cases hnx : nxt with
    | none => rw [hnx] at he; simp [confirmStep] at he
    | some nid =>
        cases hfind : alistFind? s.nodes nid with
        | none =>
            rw [hnx] at he
            simp [confirmStep, hfind] at he
            exact ⟨nid, rfl, he.symm⟩
        | some node2 => rw [hnx] at he; simp [confirmStep, hfind] at he

/-- Witness for C4: starting an unregistered dialogue id fails. -/
theorem claim4_witness :
    ∃ e, ((DialogueManager.mk [("demo", demoGraph)] true).start
        "missing_id" "root").2 = .error e := by
  have h := claim4_notFound_characterisation
    (DialogueManager.mk [("demo", demoGraph)] true) "missing_id" "root"
    (DialogueSession.mk demoGraph "end" 0 true) demoEnd (by decide)
    none (by decide)
  exact h.1.mpr (Or.inl (by decide))

/-! ### C10: the session invariant and index/key safety -/

/-- The session invariant: `current_id` is bound in the node mapping, and on a
branching node the cursor is strictly below the number of choices
(non-negativity is carried by the `Nat` type of `choice_index`). -/
def WF (s : DialogueSession) : Prop :=
  ∃ node, s.current_node = some node
    ∧ (node.has_choices = true → s.choice_index < node.choices.length)

theorem has_choices_length_pos {node : DialogueNode}
    (h : node.has_choices = true) : 0 < node.choices.length := by
  unfold DialogueNode.has_choices at h
  cases hcs : node.choices with
  | nil => rw [hcs] at h; simp at h
  | cons a l => simp [hcs]

theorem emod_toNat_lt (i : Nat) (k : Int) (n : Nat) (hn : 0 < n) :
    ((((i : Int) + k) % (n : Int)).toNat) < n := by
  have hn' : (0 : Int) < (n : Int) := by exact_mod_cast hn
  have h1 : 0 ≤ ((i : Int) + k) % (n : Int) := Int.emod_nonneg _ (ne_of_gt hn')
  have h2 : ((i : Int) + k) % (n : Int) < (n : Int) := Int.emod_lt_of_pos _ hn'
  omega

/-- A well-formed state always resolves some `next_id` (no index error). -/
theorem WF_resolvedNext (s : DialogueSession) (node : DialogueNode)
    (_hcur : s.current_node = some node)
    (hidx : node.has_choices = true → s.choice_index < node.choices.length) :
    ∃ nxt, resolvedNext node s.choice_index = some nxt := by
  by_cases hc : node.has_choices
  · have hlt := hidx hc
    refine ⟨(node.choices.get ⟨s.choice_index, hlt⟩).next_id, ?_⟩
    simp [resolvedNext, hc, List.getElem?_eq_getElem hlt]
  · exact ⟨node.next_id, by simp [resolvedNext, hc]⟩

/-- C10: construction establishes the session invariant and `move_choice`,
`confirm` and `cancel` preserve it; consequently `confirm` never raises the
embedded `KeyError` / `IndexError` of a missing `current_id` key or an
out-of-range `choices[choice_index]` access, and `move_choice` and `cancel`
never raise at all. -/
theorem claim10_session_invariant :
    (∀ nodes sid cb evs s,
        DialogueSession.make nodes sid cb = (evs, .ok s) → WF s)
    ∧ (∀ (s : DialogueSession) (k : Int), WF s →
        ∃ s1, s.move_choice k = .ok s1 ∧ WF s1)
    ∧ (∀ s : DialogueSession, WF s →
        s.confirm.2 ≠ .error .indexError
        ∧ ∀ id, s.confirm.2 ≠ .error (.keyError id))
    ∧ (∀ (s : DialogueSession) (b : Bool) (s2 : DialogueSession), WF s →
        s.confirm.2 = .ok (b, s2) → WF s2)
    ∧ (∀ s : DialogueSession, WF s → ∃ evs, s.cancel = .ok evs) := by
  refine ⟨?_, ?_, ?_, ?_, ?_⟩
  · intro nodes sid cb evs s hmk
    cases hf : alistFind? nodes sid with
    | none => simp [DialogueSession.make, hf] at hmk
    | some node =>
        rw [DialogueSession.make] at hmk
        simp [hf] at hmk
        refine ⟨node, ?_, fun hc => ?_⟩
        · rw [← hmk.2]
          exact hf
        · rw [← hmk.2]
          exact has_choices_length_pos hc
  · intro s k hwf
    obtain ⟨node, hcur, hidx⟩ := hwf
    by_cases hc : node.has_choices
    · refine ⟨{ s with choice_index :=
        (((s.choice_index : Int) + k) % (node.choices.length : Int)).toNat },
        by simp [DialogueSession.move_choice, hcur, hc], ?_⟩
      exact ⟨node, hcur, fun _ => emod_toNat_lt _ _ _ (has_choices_length_pos hc)⟩
    · exact ⟨s, by simp [DialogueSession.move_choice, hcur, hc], node, hcur, hidx⟩
  · intro s hwf
    obtain ⟨node, hcur, hidx⟩ := hwf
    obtain ⟨nxt, hn⟩ := WF_resolvedNext s node hcur hidx
    rw [confirm_eq s node hcur nxt hn]
    cases nxt with
    | none => simp [confirmStep]
    | some nid =>
        cases hfind : alistFind? s.nodes nid with
        | none => simp [confirmStep, hfind]
        | some node2 => simp [confirmStep, hfind]
  · intro s b s2 hwf hok
    obtain ⟨node, hcur, hidx⟩ := hwf
    cases b with
    | true =>
        obtain ⟨nxt, hn⟩ := WF_resolvedNext s node hcur hidx
        rw [confirm_eq s node hcur nxt hn] at hok
        cases hnx : nxt with
        | none =>
            rw [hnx] at hok
            simp [confirmStep] at hok
            rw [← hok]
            exact ⟨node, hcur, hidx⟩
        | some nid =>
            rw [hnx] at hok
            cases hfind : alistFind? s.nodes nid with
            | none => simp [confirmStep, hfind] at hok
            | some node2 => simp [confirmStep, hfind] at hok
    | false =>
        obtain ⟨node', node2, _, hfind2, _, hs2⟩ :=
          confirm_moves_inversion s s2 hok
        refine ⟨node2, ?_, fun hc => ?_⟩
        · show alistFind? s2.nodes s2.current_id = some node2
          have hnodes : s2.nodes = s.nodes := by rw [hs2]
          rw [hnodes]
          exact hfind2
        · have hci : s2.choice_index = 0 := by rw [hs2]
          rw [hci]
          exact has_choices_length_pos hc
  · intro s hwf
    obtain ⟨node, hcur, _⟩ := hwf
    exact ⟨fireEvent s.has_callback node.exit_event node.node_id,
      by simp [DialogueSession.cancel, hcur]⟩

/-- Witness for C10: the construction clause at the demonstration graph. -/
theorem claim10_witness : WF (DialogueSession.mk demoGraph "root" 0 true) :=
  claim10_session_invariant.1 demoGraph "root" true
    [⟨"root_enter", [("node_id", "root")]⟩]
    (DialogueSession.mk demoGraph "root" 0 true) (by rfl)

/-! ### C2: quest completion is monotonic, threshold-exact and one-shot -/

/-- One `handle_event` call, keeping only the post-state (errors, which never
occur from the constructed manager, leave the state unchanged). -/
def qstep (m : QuestManager) (e : String × Option Payload) : QuestManager :=
  match m.handle_event e.1 e.2 with
  | .ok r => r.1
  | .error _ => m

/-- The actions returned by one `handle_event` call. -/
def qactions (m : QuestManager) (e : String × Option Payload) : List String :=
  match m.handle_event e.1 e.2 with
  | .ok r => r.2
  | .error _ => []

/-- The manager after a sequence of `handle_event` calls, from construction. -/
def runQ (es : List (String × Option Payload)) : QuestManager :=
  es.foldl qstep QuestManager.init

/-- The tracked quest's state. -/
def artifactState (m : QuestManager) : Option QuestState :=
  alistFind? m.quests QUEST_FIND_ARTIFACTS

/-- Reachable-manager invariant: the tracked quest exists, requires three
items, its flag mirrors `card ≥ 3`, and the set never grows past three. -/
def QInv (m : QuestManager) : Prop :=
  ∃ st, artifactState m = some st ∧ st.items_required = 3
    ∧ st.completed = decide (3 ≤ st.items_collected.card)
    ∧ st.items_collected.card ≤ 3

theorem record_item_of_completed (q : QuestState) (oid : String)
    (h : q.completed = true) : q.record_item oid = q := by
  simp [QuestState.record_item, h]

theorem record_item_spec (q : QuestState) (oid : String)
    (hc : q.completed = false) :
    (q.record_item oid).items_required = q.items_required
    ∧ (q.record_item oid).items_collected = insert oid q.items_collected
    ∧ (q.record_item oid).completed
        = decide (q.items_required ≤ (insert oid q.items_collected).card) := by
  rw [QuestState.record_item]
  simp only [hc, Bool.false_eq_true, if_false]
  by_cases h3 : q.items_required ≤ (insert oid q.items_collected).card
  · simp [h3]
  · simp [h3]

/-- Ignored events (shared workhorse behind C6): any event that is not a
well-formed `quest_item_collected` returns `ok (m, [])`. -/
theorem handle_event_ignored (m : QuestManager) (event_name : String)
    (payload : Option Payload)
    (h : event_name ≠ "quest_item_collected"
         ∨ payloadGet payload "object_id" = none
         ∨ payloadGet payload "object_id" = some "") :
    m.handle_event event_name payload = .ok (m, []) := by
  rcases h with h | h | h
  · simp [QuestManager.handle_event, h]
  · by_cases he : event_name = "quest_item_collected"
    · simp [QuestManager.handle_event, he, h]
    · simp [QuestManager.handle_event, he]
  · by_cases he : event_name = "quest_item_collected"
    · simp [QuestManager.handle_event, he, h, String.isEmpty]
    · simp [QuestManager.handle_event, he]

/-- A qualifying `quest_item_collected` event records the item and returns the
one-shot action exactly on the incomplete-to-complete transition. -/
theorem handle_event_qualifying (m : QuestManager) (st : QuestState)
    (oid : String) (p : Option Payload)
    (hfind : artifactState m = some st)
    (hp : payloadGet p "object_id" = some oid) (hne : oid ≠ "") :
    m.handle_event "quest_item_collected" p = .ok
      (⟨alistInsert m.quests QUEST_FIND_ARTIFACTS (st.record_item oid)⟩,
       if !st.completed && (st.record_item oid).completed
       then ["quest_completed"] else []) := by
  have hemp : oid.isEmpty = false := by
    cases hval : oid.isEmpty
    · rfl
    · exact absurd ((String.isEmpty_iff _).mp hval) hne
  rw [artifactState] at hfind
  cases hc1 : st.completed <;> cases hc2 : (st.record_item oid).completed <;>
    simp [QuestManager.handle_event, hp, hemp, hfind, hc1, hc2]

theorem qinv_init : QInv QuestManager.init :=
  ⟨_, rfl, rfl, by decide, by decide⟩

theorem qinv_qstep (m : QuestManager) (e : String × Option Payload)
    (h : QInv m) : QInv (qstep m e) := by
  obtain ⟨st, hfind, hreq, hflag, hcard⟩ := h
  by_cases hq : e.1 = "quest_item_collected"
      ∧ ∃ oid, payloadGet e.2 "object_id" = some oid ∧ oid ≠ ""
  · obtain ⟨he, oid, hp, hne⟩ := hq
    have heq := handle_event_qualifying m st oid e.2 hfind hp hne
    have hstep : qstep m e
        = ⟨alistInsert m.quests QUEST_FIND_ARTIFACTS (st.record_item oid)⟩ := by
      rw [qstep, he, heq]
    rw [hstep]
    cases hc : st.completed
    · obtain ⟨hr, hi, hcm⟩ := record_item_spec st oid hc
      have hlt : st.items_collected.card < 3 := by
        rw [hc] at hflag
        have := of_decide_eq_false hflag.symm
        omega
      refine ⟨st.record_item oid, alistFind?_insert_self _ _ _, ?_, ?_, ?_⟩
      · rw [hr, hreq]
      · rw [hcm, hi, hreq]
      · rw [hi]
        have := Finset.card_insert_le oid st.items_collected
        omega
    · rw [record_item_of_completed st oid hc]
      exact ⟨st, alistFind?_insert_self _ _ _, hreq, hflag, hcard⟩
  · push_neg at hq
    have hig : m.handle_event e.1 e.2 = .ok (m, []) := by
      by_cases he : e.1 = "quest_item_collected"
      · cases hp : payloadGet e.2 "object_id" with
        | none => exact handle_event_ignored _ _ _ (Or.inr (Or.inl hp))
        | some oid =>
            have : oid = "" := by
              by_contra hne
              exact hne (hq he oid hp)
            rw [this] at hp
            exact handle_event_ignored _ _ _ (Or.inr (Or.inr hp))
      · exact handle_event_ignored _ _ _ (Or.inl he)
    have hstep : qstep m e = m := by rw [qstep, hig]
    rw [hstep]
    exact ⟨st, hfind, hreq, hflag, hcard⟩

theorem qinv_foldl (m : QuestManager) (es : List (String × Option Payload))
    (h : QInv m) : QInv (es.foldl qstep m) := by
  induction es generalizing m with
  | nil => exact h
  | cons e rest ih => exact ih _ (qinv_qstep m e h)

theorem qinv_runQ (es : List (String × Option Payload)) : QInv (runQ es) :=
  qinv_foldl _ es qinv_init

theorem qstep_mono (m : QuestManager) (e : String × Option Payload)
    (h : m.quest_completed QUEST_FIND_ARTIFACTS = true) :
    (qstep m e).quest_completed QUEST_FIND_ARTIFACTS = true := by
  cases hfind : artifactState m with
  | none =>
      rw [QuestManager.quest_completed] at h
      rw [artifactState] at hfind
      simp [hfind] at h
  | some st =>
      have hc : st.completed = true := by
        rw [QuestManager.quest_completed] at h
        rw [artifactState] at hfind
        simpa [hfind] using h
      by_cases hq : e.1 = "quest_item_collected"
          ∧ ∃ oid, payloadGet e.2 "object_id" = some oid ∧ oid ≠ ""
      · obtain ⟨he, oid, hp, hne⟩ := hq
        have heq := handle_event_qualifying m st oid e.2 hfind hp hne
        have hstep : qstep m e
            = ⟨alistInsert m.quests QUEST_FIND_ARTIFACTS (st.record_item oid)⟩ := by
          rw [qstep, he, heq]
        rw [hstep, QuestManager.quest_completed]
        simp [alistFind?_insert_self, record_item_of_completed st oid hc, hc]
      · push_neg at hq
        have hig : m.handle_event e.1 e.2 = .ok (m, []) := by
          by_cases he : e.1 = "quest_item_collected"
          · cases hp : payloadGet e.2 "object_id" with
            | none => exact handle_event_ignored _ _ _ (Or.inr (Or.inl hp))
            | some oid =>
                have : oid = "" := by
                  by_contra hne
                  exact hne (hq he oid hp)
                rw [this] at hp
                exact handle_event_ignored _ _ _ (Or.inr (Or.inr hp))
          · exact handle_event_ignored _ _ _ (Or.inl he)
        have hstep : qstep m e = m := by rw [qstep, hig]
        rw [hstep]
        exact h

theorem qfoldl_mono (m : QuestManager) (es : List (String × Option Payload))
    (h : m.quest_completed QUEST_FIND_ARTIFACTS = true) :
    (es.foldl qstep m).quest_completed QUEST_FIND_ARTIFACTS = true := by
  induction es generalizing m with
  | nil => exact h
  | cons e rest ih => exact ih _ (qstep_mono m e h)

theorem runQ_append (es es2 : List (String × Option Payload)) :
    runQ (es ++ es2) = es2.foldl qstep (runQ es) := by
  simp [runQ, List.foldl_append]

theorem handle_event_ignored_of_not_qualifying (m : QuestManager)
    (e : String × Option Payload)
    (hq : ¬(e.1 = "quest_item_collected"
        ∧ ∃ oid, payloadGet e.2 "object_id" = some oid ∧ oid ≠ "")) :
    m.handle_event e.1 e.2 = .ok (m, []) := by
  push_neg at hq
  by_cases he : e.1 = "quest_item_collected"
  · cases hp : payloadGet e.2 "object_id" with
    | none => exact handle_event_ignored _ _ _ (Or.inr (Or.inl hp))
    | some oid =>
        have hoid : oid = "" := by
          by_contra hne
          exact hne (hq he oid hp)
        rw [hoid] at hp
        exact handle_event_ignored _ _ _ (Or.inr (Or.inr hp))
  · exact handle_event_ignored _ _ _ (Or.inl he)

theorem qactions_shape (m : QuestManager) (e : String × Option Payload) :
    qactions m e = [] ∨ qactions m e = ["quest_completed"] := by
  by_cases hq : e.1 = "quest_item_collected"
      ∧ ∃ oid, payloadGet e.2 "object_id" = some oid ∧ oid ≠ ""
  · obtain ⟨he, oid, hp, hne⟩ := hq
    cases hfind : artifactState m with
    | none =>
        left
        have hemp : oid.isEmpty = false := by
          cases hval : oid.isEmpty
          · rfl
          · exact absurd ((String.isEmpty_iff _).mp hval) hne
        rw [artifactState] at hfind
        rw [qactions, he]
        simp [QuestManager.handle_event, hp, hemp, hfind]
    | some st =>
        have heq := handle_event_qualifying m st oid e.2 hfind hp hne
        rw [qactions, he, heq]
        by_cases hcond : (!st.completed && (st.record_item oid).completed) = true
        · right; simp [hcond]
        · left; simp [hcond]
  · left
    rw [qactions, handle_event_ignored_of_not_qualifying m e hq]

/-- The one-shot action is returned exactly on an incomplete-to-complete
transition of the tracked quest. -/
theorem qactions_iff_transition (m : QuestManager) (e : String × Option Payload)
    (h : QInv m) :
    qactions m e = ["quest_completed"] ↔
      (m.quest_completed QUEST_FIND_ARTIFACTS = false
        ∧ (qstep m e).quest_completed QUEST_FIND_ARTIFACTS = true) := by
  obtain ⟨st, hfind, hreq, hflag, hcard⟩ := h
  have hqc : m.quest_completed QUEST_FIND_ARTIFACTS = st.completed := by
    rw [QuestManager.quest_completed]
    rw [artifactState] at hfind
    simp [hfind]
  by_cases hq : e.1 = "quest_item_collected"
      ∧ ∃ oid, payloadGet e.2 "object_id" = some oid ∧ oid ≠ ""
  · obtain ⟨he, oid, hp, hne⟩ := hq
    have heq := handle_event_qualifying m st oid e.2 hfind hp hne
    have hstep : qstep m e
        = ⟨alistInsert m.quests QUEST_FIND_ARTIFACTS (st.record_item oid)⟩ := by
      rw [qstep, he, heq]
    have hact : qactions m e
        = if !st.completed && (st.record_item oid).completed
          then ["quest_completed"] else [] := by
      rw [qactions, he, heq]
    have hqc2 : (qstep m e).quest_completed QUEST_FIND_ARTIFACTS
        = (st.record_item oid).completed := by
      rw [hstep, QuestManager.quest_completed]
      simp [alistFind?_insert_self]
    rw [hact, hqc, hqc2]
    cases hc1 : st.completed
    · cases hc2 : (st.record_item oid).completed <;> simp [hc1, hc2]
    · have hc2 : (st.record_item oid).completed = true := by
        rw [record_item_of_completed st oid hc1]
        exact hc1
      simp [hc1, hc2]
  · have hig := handle_event_ignored_of_not_qualifying m e hq
    have hstep : qstep m e = m := by rw [qstep, hig]
    have hact : qactions m e = [] := by rw [qactions, hig]
    rw [hact, hstep, hqc]
    cases hc1 : st.completed <;> simp

/-- C2: across every sequence of `handle_event` calls from construction, the
tracked quest's `completed` flag is monotonic; it always equals the test
"number of distinct collected ids has reached `items_required`" (the ids live
in a set, so duplicates cannot inflate the count, and the flag is re-evaluated
only on insertion); and the `["quest_completed"]` action is returned exactly
on the call making the incomplete-to-complete transition — hence on at most
one call of the whole sequence. -/
theorem claim2_completion_monotone_one_shot :
    (∀ es es2 : List (String × Option Payload),
        (runQ es).quest_completed QUEST_FIND_ARTIFACTS = true →
        (runQ (es ++ es2)).quest_completed QUEST_FIND_ARTIFACTS = true)
    ∧ (∀ es : List (String × Option Payload),
        ∃ st, artifactState (runQ es) = some st ∧ st.items_required = 3
          ∧ st.completed = decide (st.items_required ≤ st.items_collected.card))
    ∧ (∀ (es : List (String × Option Payload)) (e : String × Option Payload),
        qactions (runQ es) e = ["quest_completed"] ↔
          ((runQ es).quest_completed QUEST_FIND_ARTIFACTS = false
            ∧ (runQ (es ++ [e])).quest_completed QUEST_FIND_ARTIFACTS = true))
    ∧ (∀ (es : List (String × Option Payload)) (i j : Nat)
        (hi : i < es.length) (hj : j < es.length),
        qactions (runQ (es.take i)) (es.get ⟨i, hi⟩) ≠ [] →
        qactions (runQ (es.take j)) (es.get ⟨j, hj⟩) ≠ [] → i = j) := by
  have hsingle : ∀ (es : List (String × Option Payload)) (e : _),
      runQ (es ++ [e]) = qstep (runQ es) e := by
    intro es e
    rw [runQ_append]
    rfl
  have htake : ∀ (es : List (String × Option Payload)) (i : Nat)
      (hi : i < es.length),
      runQ (es.take (i+1)) = qstep (runQ (es.take i)) (es.get ⟨i, hi⟩) := by
    intro es i hi
    rw [List.take_succ, List.getElem?_eq_getElem hi]
    rw [← hsingle]
    rfl
  refine ⟨?_, ?_, ?_, ?_⟩
  · intro es es2 h
    rw [runQ_append]
    exact qfoldl_mono _ _ h
  · intro es
    obtain ⟨st, hfind, hreq, hflag, _⟩ := qinv_runQ es
    refine ⟨st, hfind, hreq, ?_⟩
    rw [hreq]
    exact hflag
  · intro es e
    rw [hsingle]
    exact qactions_iff_transition (runQ es) e (qinv_runQ es)
  · intro es i j hi hj hai haj
    have key : ∀ (i j : Nat) (hi : i < es.length) (hj : j < es.length),
        qactions (runQ (es.take i)) (es.get ⟨i, hi⟩) ≠ [] →
        qactions (runQ (es.take j)) (es.get ⟨j, hj⟩) ≠ [] → i < j → False := by
      intro i j hi hj hai haj hij
      have hai2 : qactions (runQ (es.take i)) (es.get ⟨i, hi⟩)
          = ["quest_completed"] :=
        (qactions_shape _ _).resolve_left hai
      have haj2 : qactions (runQ (es.take j)) (es.get ⟨j, hj⟩)
          = ["quest_completed"] :=
        (qactions_shape _ _).resolve_left haj
      have hti := (qactions_iff_transition _ _ (qinv_runQ _)).mp hai2
      have htj := (qactions_iff_transition _ _ (qinv_runQ _)).mp haj2
      have hci : (runQ (es.take (i+1))).quest_completed QUEST_FIND_ARTIFACTS
          = true := by
        rw [htake es i hi]
        exact hti.2
      have hsplit : es.take j = es.take (i+1) ++ (es.drop (i+1)).take (j-(i+1)) := by
        have hadd : (i+1) + (j - (i+1)) = j := by omega
        conv_lhs => rw [← hadd]
        exact List.take_add es (i+1) (j-(i+1))
      have hcj : (runQ (es.take j)).quest_completed QUEST_FIND_ARTIFACTS
          = true := by
        rw [hsplit, runQ_append]
        exact qfoldl_mono _ _ hci
      rw [htj.1] at hcj
      exact Bool.false_ne_true hcj
    rcases Nat.lt_trichotomy i j with h | h | h
    · exact (key i j hi hj hai haj h).elim
    · exact h
    · exact (key j i hj hi haj hai h).elim

/-- Scenario C event feed: object ids `a`, `b`, `a`, `c`. -/
def demoQEvents : List (String × Option Payload) :=
  [("quest_item_collected", some [("object_id", "a")]),
   ("quest_item_collected", some [("object_id", "b")]),
   ("quest_item_collected", some [("object_id", "a")]),
   ("quest_item_collected", some [("object_id", "c")])]

/-- Witness for C2: once completed by three distinct ids, the flag stays. -/
theorem claim2_witness :
    (runQ (demoQEvents ++ [("quest_item_collected", some [("object_id", "d")])]
      )).quest_completed QUEST_FIND_ARTIFACTS = true :=
  claim2_completion_monotone_one_shot.1 demoQEvents
    [("quest_item_collected", some [("object_id", "d")])] (by decide)

/-! ### C7: acyclic reachable content makes repeated confirm terminate -/

/-- The `next_id` values a node can transfer control to: its choices' targets
on a branching node, its own `next_id` on a linear node. -/
def succCandidates (node : DialogueNode) : List (Option String) :=
  if node.has_choices then node.choices.map (fun c => c.next_id)
  else [node.next_id]

/-- The successor relation of a graph: `u` steps to `v` when `u` is bound to a
node one of whose candidate targets is `v`, and `v` is itself bound. -/
def SuccStep (nodes : AList DialogueNode) (u v : String) : Prop :=
  ∃ node, alistFind? nodes u = some node
    ∧ (some v) ∈ succCandidates node
    ∧ (alistFind? nodes v).isSome = true

/-- One round of the interactive loop: any number of interleaved `move_choice`
calls (which only relocate `choice_index`, leaving `nodes` and `current_id`
untouched — see `claim5_move_choice_round_trip`'s second clause) followed by a
`confirm` that returns the non-completion signal.  Quantifying over the
intermediate `choice_index` over-approximates every such interleaving. -/
def RunStep (s s2 : DialogueSession) : Prop :=
  ∃ s1 : DialogueSession, s1.nodes = s.nodes ∧ s1.current_id = s.current_id
    ∧ s1.confirm.2 = .ok (false, s2)

/-- A moving `confirm` steps along the successor relation. -/
theorem confirm_moves_candidate (s s2 : DialogueSession)
    (hm : s.confirm.2 = .ok (false, s2)) :
    ∃ node, s.current_node = some node
      ∧ (some s2.current_id) ∈ succCandidates node
      ∧ (alistFind? s.nodes s2.current_id).isSome = true
      ∧ s2.nodes = s.nodes := by
  obtain ⟨node, node2, hcur, hfind2, _, hs2⟩ := confirm_moves_inversion s s2 hm
  have hnodes : s2.nodes = s.nodes := by rw [hs2]
  refine ⟨node, hcur, ?_, by rw [hfind2]; rfl, hnodes⟩
  by_cases hc : node.has_choices
  · cases hg : node.choices[s.choice_index]? with
    | none => simp [DialogueSession.confirm, hcur, hc, hg] at hm
    | some choice =>
        have heq := confirm_eq s node hcur choice.next_id
          (by simp [resolvedNext, hc, hg])
        rw [heq] at hm
        cases hnx : choice.next_id with
        | none => rw [hnx] at hm; simp [confirmStep] at hm
        | some nid =>
            rw [hnx] at hm
            cases hfind : alistFind? s.nodes nid with
            | none => simp [confirmStep, hfind] at hm
            | some node2x =>
                simp [confirmStep, hfind] at hm
                have hcid : s2.current_id = nid := by rw [← hm]
                rw [hcid]
                have hmem : choice ∈ node.choices :=
                  List.getElem?_mem hg
                simp [succCandidates, hc]
                exact ⟨choice, hmem, hnx⟩
  · have heq := confirm_eq s node hcur node.next_id (by simp [resolvedNext, hc])
    rw [heq] at hm
    cases hnx : node.next_id with
    | none => rw [hnx] at hm; simp [confirmStep] at hm
    | some nid =>
        rw [hnx] at hm
        cases hfind : alistFind? s.nodes nid with
        | none => simp [confirmStep, hfind] at hm
        | some node2x =>
            simp [confirmStep, hfind] at hm
            have hcid : s2.current_id = nid := by rw [← hm]
            rw [hcid]
            simp [succCandidates, hc, hnx]

theorem alistFind?_isSome_mem {α : Type} (m : AList α) (k : String)
    (h : (alistFind? m k).isSome = true) : k ∈ m.map Prod.fst := by
  induction m with
  | nil => simp [alistFind?] at h
  | cons p rest ih =>
      obtain ⟨k', v⟩ := p
      by_cases hk : k' = k
      · subst hk
        simp
      · rw [alistFind?] at h
        simp [hk] at h
        simpa using Or.inr (ih h)

/-- C7: (i) when the successor relation of a registered graph is acyclic on
the nodes reachable from the start node, there is no infinite run of moving
confirms from the start — after finitely many `confirm` calls, with any
interleaved `move_choice` calls, no further `RunStep` is possible; (ii) from
any well-formed state, the only remaining outcomes of `confirm` are the
completion signal (state unchanged) or a `notFound` failure (besides moving
on), so a finite run indeed ends in completion or `NotFound`.
Non-termination therefore needs a cycle in the content. -/
theorem claim7_acyclic_termination :
    (∀ (nodes : AList DialogueNode) (start : String),
        (∀ u, Relation.ReflTransGen (SuccStep nodes) start u →
            ¬ Relation.TransGen (SuccStep nodes) u u) →
        ¬ ∃ f : ℕ → DialogueSession,
            (f 0).nodes = nodes ∧ (f 0).current_id = start
            ∧ ∀ n, RunStep (f n) (f (n+1)))
    ∧ (∀ s : DialogueSession, WF s →
        s.confirm.2 = .ok (true, s)
        ∨ (∃ s2, s.confirm.2 = .ok (false, s2))
        ∨ (∃ id, s.confirm.2 = .error (.notFound id))) := by
  constructor
  · intro nodes start hacyc
    rintro ⟨f, h0n, h0c, hstep⟩
    have hnodes : ∀ n, (f n).nodes = nodes := by
      intro n
      induction n with
      | zero => exact h0n
      | succ n ih =>
          obtain ⟨s1, hn1, _, hm1⟩ := hstep n
          obtain ⟨_, _, _, _, hnn⟩ := confirm_moves_candidate s1 (f (n+1)) hm1
          rw [hnn, hn1, ih]
    have hSucc : ∀ n, SuccStep nodes (f n).current_id (f (n+1)).current_id := by
      intro n
      obtain ⟨s1, hn1, hc1, hm1⟩ := hstep n
      obtain ⟨node, hcur, hmem, hsome, _⟩ :=
        confirm_moves_candidate s1 (f (n+1)) hm1
      rw [DialogueSession.current_node, hn1, hc1, hnodes n] at hcur
      rw [hn1, hnodes n] at hsome
      exact ⟨node, hcur, hmem, hsome⟩
    have hreach : ∀ n,
        Relation.ReflTransGen (SuccStep nodes) start (f n).current_id := by
      intro n
      induction n with
      | zero => rw [h0c]
      | succ n ih => exact Relation.ReflTransGen.tail ih (hSucc n)
    have hchain : ∀ m n, m < n →
        Relation.TransGen (SuccStep nodes) (f m).current_id (f n).current_id := by
      intro m n hmn
      induction n with
      | zero => omega
      | succ n ih =>
          rcases Nat.lt_succ_iff_lt_or_eq.mp hmn with h | h
          · exact Relation.TransGen.tail (ih h) (hSucc n)
          · rw [h]
            exact Relation.TransGen.single (hSucc n)
    have hmemkeys : ∀ n, (f n).current_id ∈ nodes.map Prod.fst := by
      intro n
      obtain ⟨node, hfind, _, _⟩ := hSucc n
      exact alistFind?_isSome_mem _ _ (by rw [hfind]; rfl)
    haveI : Finite {x : String // x ∈ nodes.map Prod.fst} :=
      (List.finite_toSet (nodes.map Prod.fst)).to_subtype
    obtain ⟨a, b, hab, heq⟩ := Finite.exists_ne_map_eq_of_infinite
      (fun n : ℕ => (⟨(f n).current_id, hmemkeys n⟩ :
        {x : String // x ∈ nodes.map Prod.fst}))
    have heq2 : (f a).current_id = (f b).current_id :=
      congrArg Subtype.val heq
    rcases lt_or_gt_of_ne hab with hlt | hlt
    · have := hchain a b hlt
      rw [heq2] at this
      exact hacyc _ (hreach b) this
    · have := hchain b a hlt
      rw [← heq2] at this
      exact hacyc _ (hreach a) this
  · intro s hwf
    obtain ⟨node, hcur, hidx⟩ := hwf
    obtain ⟨nxt, hn⟩ := WF_resolvedNext s node hcur hidx
    have heq := confirm_eq s node hcur nxt hn
    cases hnx : nxt with
    | none =>
        left
        rw [heq, hnx]
        rfl
    | some nid =>
        cases hfind : alistFind? s.nodes nid with
        | none =>
            right; right
            exact ⟨nid, by rw [heq, hnx]; simp [confirmStep, hfind]⟩
        | some node2 =>
            right; left
            exact ⟨{ s with current_id := nid, choice_index := 0 },
              by rw [heq, hnx]; simp [confirmStep, hfind]⟩

/-- A one-node terminal graph, trivially acyclic. -/
def soloNode : DialogueNode := { node_id := "root", text := "alone" }

/-- The graph holding only `soloNode`. -/
def soloGraph : AList DialogueNode := [("root", soloNode)]

theorem soloGraph_no_succ (u v : String) : ¬ SuccStep soloGraph u v := by
  rintro ⟨node, hfind, hmem, _⟩
  have hnode : node = soloNode := by
    rw [soloGraph, alistFind?] at hfind
    by_cases h : ("root" == u)
    · simp [h] at hfind
      exact hfind.symm
    · simp [h, alistFind?] at hfind
  subst hnode
  simp [succCandidates, soloNode, DialogueNode.has_choices] at hmem

/-- Witness for C7: the acyclicity clause discharged on the one-node graph. -/
theorem claim7_witness :
    ¬ ∃ f : ℕ → DialogueSession,
        (f 0).nodes = soloGraph ∧ (f 0).current_id = "root"
        ∧ ∀ n, RunStep (f n) (f (n+1)) :=
  claim7_acyclic_termination.1 soloGraph "root" (fun u _ htg => by
    cases htg with
    | single h => exact soloGraph_no_succ _ _ h
    | tail _ h => exact soloGraph_no_succ _ _ h)

end Pygame
